import Mathlib

/-!
# Verification of the `yicun/ibuer-go` field-selective structured encoder

This file gives a shallow embedding, in Lean 4, of the `slog`/`log`
field-selective JSON encoder of the repository (tag parser, mask functions,
extension registries, cycle guard, value resolver / priority engine,
post-processor, sensitive-data heuristic, top-level driver), together with
theorems settling the behavioural claims about it.

Modelling conventions:
* Go strings are modelled as `List Char` (`Str`); Go byte-level slicing is
  modelled at character granularity (all inputs of interest are ASCII).
* Go `float32`/`float64` values are modelled as exact rationals `ℚ`; the only
  float arithmetic performed by the encoder is `math.Round(f*10^p)/10^p`,
  which on rationals is exactly round-half-away-from-zero of the scaled value.
  The `%v`/`%f` textual renderings of floats are abstracted by a fixed decimal
  rendering (no claim inspects these texts).
* Go's reflective value graph is modelled by `GoVal` plus an explicit heap
  (`List GoVal`); a non-nil pointer is a heap address.  Interface-capability
  probes (`Logger`, `ConditionalLogger`, `json.Marshaler`, `IsZeroer`) are
  modelled as optional capability slots carried by struct values (`Caps`),
  the results the corresponding method calls would return.
* Go `error` values are modelled by their rendered message (`Str`), since the
  program only ever consumes errors through `Error()`/`%v`.
* Go's `map[string]any` output maps are modelled as insertion-ordered
  association lists; the program never relies on Go's map iteration order in
  any behaviour claimed here.
* The per-call visited set of the cycle guard is a parameter threaded along
  the call structure: the Go code inserts a pointer before descending and
  deletes it (via `defer`) when the call returns, so a callee runs with the
  caller's set extended by the pointers on the path to it, and siblings run
  with identical sets.  Termination of the encoder for arbitrary, possibly
  cyclic heaps is established by the well-founded measure used to define it
  (unvisited heap addresses, then value size).
-/

set_option linter.unusedVariables false

namespace IbuerLog

/-- Go strings, modelled as lists of characters. -/
abbrev Str := List Char

/-- Coerce a Lean string literal to the `Str` model. -/
def str (s : String) : Str := s.data

/-- Go `strings.Contains s sub`. -/
def strContains (s sub : Str) : Bool := decide (sub <:+: s)

/-- Whitespace test used by `strings.TrimSpace` (ASCII fragment of
Unicode White_Space, which covers every string the program manipulates). -/
def isSpaceChar (c : Char) : Bool :=
  c = ' ' ∨ c = '\t' ∨ c = '\n' ∨ c = '\r' ∨ c = (Char.ofNat 11) ∨ c = (Char.ofNat 12)

/-- Go `strings.TrimSpace`. -/
def trimSpace (s : Str) : Str :=
  ((s.dropWhile isSpaceChar).reverse.dropWhile isSpaceChar).reverse

/-- Go `strings.ToLower` (simple character-wise lowering). -/
def toLowerStr (s : Str) : Str := s.map Char.toLower

/-- Decimal digit test (`\d` of the Go regexps, `unicode.IsDigit` fragment). -/
def isDigitChar (c : Char) : Bool := '0' ≤ c ∧ c ≤ '9'

/-- Value of a string of decimal digits; `none` if empty or non-digit. -/
def digitsVal : Str → Option Nat
  | [] => none
  | l =>
    if l.all isDigitChar then
      some (l.foldl (fun acc c => acc * 10 + (c.toNat - '0'.toNat)) 0)
    else none

/-- Go `strconv.Atoi` (base 10, optional sign; overflow is not modelled, the
program never feeds values anywhere near `int64` bounds). -/
def atoi : Str → Option Int
  | [] => none
  | '+' :: rest => (digitsVal rest).map Int.ofNat
  | '-' :: rest => (digitsVal rest).map (fun n => -(n : Int))
  | l => (digitsVal l).map Int.ofNat

/-- Parsed per-field options, `fieldOptions` of the source.  The source field
`String` is rendered `ForceString` here (`String` is a Lean builtin). -/
structure fieldOptions where
  Name : Str := []
  OmitEmpty : Bool := false
  Serializer : Str := []
  Mask : Str := []
  Inline : Bool := false
  ForceString : Bool := false
  Precision : Int := 0
  Format : Str := []
  Unit : Str := []
  deriving Repr, DecidableEq

/-- One iteration of the option-segment `switch` of `parseFieldOptions`
(`sfIsStruct` is `sf.Type.Kind() == reflect.Struct` of the source). -/
def applySeg (sfIsStruct : Bool) (o : fieldOptions) (seg0 : Str) : fieldOptions :=
  let seg := trimSpace seg0
  if seg = str "omitempty" then { o with OmitEmpty := true }
  else if seg = str "inline" ∧ sfIsStruct then { o with Inline := true }
  else if seg = str "string" then { o with ForceString := true }
  else if (str "ser=").isPrefixOf seg then { o with Serializer := seg.drop 4 }
  else if (str "mask=").isPrefixOf seg then { o with Mask := seg.drop 5 }
  else if (str "precision=").isPrefixOf seg then
    match atoi (seg.drop 10) with
    | some p => { o with Precision := p }
    | none => o
  else if (str "format=").isPrefixOf seg then { o with Format := seg.drop 7 }
  else if (str "unit=").isPrefixOf seg then { o with Unit := seg.drop 5 }
  else o

/-- The option-segment loop of `parseFieldOptions`. -/
def applyOptions (sfIsStruct : Bool) (o : fieldOptions) (segs : List Str) : fieldOptions :=
  segs.foldl (applySeg sfIsStruct) o

/-- `parseFieldOptions` of the source: parse a `log` tag string for a field
with declared name `sfName` and struct-ness `sfIsStruct`. -/
def parseFieldOptions (tag : Str) (sfName : Str) (sfIsStruct : Bool) : fieldOptions :=
  let o0 : fieldOptions := { Name := sfName }
  let tag1 := trimSpace tag
  if tag1 = str "-" then { o0 with Name := str "-" }
  else
    match tag1.findIdx? (· = ',') with
    | some i =>
      let name := trimSpace (tag1.take i)
      let rest := trimSpace (tag1.drop (i + 1))
      applyOptions sfIsStruct { o0 with Name := name } (rest.splitOn ',')
    | none => { o0 with Name := trimSpace tag1 }

/-- `tagOpts.Contains` of the source (used on the `json` tag's option part). -/
def tagOptsContains (o : Str) (opt : Str) : Bool :=
  (o.splitOn ',').any (fun seg => trimSpace seg = opt)

/-! ## Mask functions (src/slog/utils.go) -/

/-- `defaultMask` of the source. -/
def defaultMask (s : Str) : Str :=
  if s.length ≤ 4 then str "****"
  else
    let visibleChars := if s.length > 8 then 3 else 2
    let pre := s.take (visibleChars / 2)
    let suf := s.drop (s.length - visibleChars / 2)
    let maskedLength := s.length - visibleChars
    if maskedLength ≤ 0 then str "****"
    else pre ++ List.replicate maskedLength '*' ++ suf

/-- The built-in `phone` mask registered in `init`. -/
def phoneMask (s : Str) : Str :=
  if s.length = 11 then s.take 3 ++ str "****" ++ s.drop 7
  else str "***"

/-- The built-in `email` mask registered in `init`.  `strings.IndexByte`
returns `-1` when absent; the source keeps the redaction only when the index
is strictly positive, which merges "no `@`" and "`@` first". -/
def emailMask (s : Str) : Str :=
  match s.findIdx? (· = '@') with
  | some idx =>
    if idx > 0 then
      (if idx > 3 then s.take 3 else s.take 1) ++ str "***" ++ s.drop idx
    else str "***"
  | none => str "***"

/-- Name of the default mask (`defaultMK` of the source). -/
def defaultMK : Str := str "default"

/-- `getMask` of the source: total lookup falling back to `defaultMask`. -/
def getMask (maskReg : Str → Option (Str → Str)) (name : Str) : Str → Str :=
  let n := if name = [] then defaultMK else name
  match maskReg n with
  | some f => f
  | none => defaultMask

/-! ## The reflective value model -/

/-- Capability slots of a Go value: the results the interface probes of the
encoder would obtain.  `shouldLog` models `ConditionalLogger.ShouldLog`,
`marshalLog` models `Logger.MarshalLog` (`SLogger` in the `slog` copy),
`marshalJSON` models `json.Marshaler.MarshalJSON`, `isZero` models the
user-supplied `IsZeroer.IsZero`.  `none` means the interface is not
implemented (neither on the value nor its addressable pointer). -/
structure Caps where
  shouldLog : Option Bool := none
  marshalLog : Option (Except Str Str) := none
  marshalJSON : Option (Except Str Str) := none
  isZero : Option Bool := none
  deriving Repr

/-- Static (type-level) data of one declared struct field: its Go name, its
`log` tag (`reflect.StructTag.Lookup "log"`), its `json` tag
(`reflect.StructTag.Get "json"`, empty when absent), and whether its declared
type is itself a struct kind. -/
structure FieldMeta where
  fname : Str
  logTag : Option Str := none
  jsonTag : Str := []
  isStructType : Bool := false
  deriving Repr, DecidableEq

/-- Go values as seen through `reflect`.  Pointers are heap addresses
(`vptr`), so cyclic object graphs are representable; `vstruct` carries its
type name (for error messages), its capability slots and its declared fields
with their runtime values.  `vnil` is the nil/invalid interface value,
`vother` stands for the kinds the encoder does not handle (chan, func, ...).
Signed and unsigned integers of all widths are merged into `vint`, and both
float widths into an exact-rational `vfloat`. -/
inductive GoVal where
  | vnil
  | vbool (b : Bool)
  | vint (n : Int)
  | vfloat (q : ℚ)
  | vstr (s : Str)
  | vptr (a : Nat)
  | vptrNil
  | vstruct (tname : Str) (caps : Caps) (fields : List (FieldMeta × GoVal))
  | varr (elems : List GoVal)
  | vmap (entries : List (Str × GoVal))
  | vother
  deriving Repr

/-- The intermediate value tree the resolver builds (`e.out`).  A skipped /
nil result is `Option Node`'s `none`; `raw` is `json.RawMessage`. -/
inductive Node where
  | nbool (b : Bool)
  | nint (n : Int)
  | nfloat (q : ℚ)
  | nstr (s : Str)
  | raw (bytes : Str)
  | narr (elems : List Node)
  | nmap (entries : List (Str × Node))
  deriving Repr

/-- Capability lookup on an arbitrary value (non-struct values of the model
implement no capability interfaces). -/
def shouldLogOf : GoVal → Option Bool
  | .vstruct _ caps _ => caps.shouldLog
  | _ => none

/-- Capability lookup for the custom-marshal (`Logger`) capability. -/
def marshalLogOf : GoVal → Option (Except Str Str)
  | .vstruct _ caps _ => caps.marshalLog
  | _ => none

/-- Kind-level type rendering used in `MarshalError` messages (the claims
only inspect the error text for fixed substrings, never for type names). -/
def typeNameOf : GoVal → Str
  | .vnil => str "nil"
  | .vbool _ => str "bool"
  | .vint _ => str "int"
  | .vfloat _ => str "float64"
  | .vstr _ => str "string"
  | .vptr _ => str "ptr"
  | .vptrNil => str "ptr"
  | .vstruct t _ _ => t
  | .varr _ => str "slice"
  | .vmap _ => str "map"
  | .vother => str "other"

/-! ### Size measure for termination

Weighted sizes of values; the weights leave room for the intermediate
functions (`encodeField` → `encodeBasic` → `encodeInlineField` →
`encodeReflect`) between a list node and its members. -/

mutual

/-- Weighted size of a value (termination measure component). -/
def gsize : GoVal → Nat
  | .vstruct _ _ fs => 2 + gsizeF fs
  | .varr l => 1 + gsizeL l
  | .vmap l => 1 + gsizeM l
  | _ => 1

/-- Weighted size of a struct field list. -/
def gsizeF : List (FieldMeta × GoVal) → Nat
  | [] => 0
  | (_, v) :: r => 6 + gsize v + gsizeF r

/-- Weighted size of a slice/array element list. -/
def gsizeL : List GoVal → Nat
  | [] => 0
  | v :: r => 2 + gsize v + gsizeL r

/-- Weighted size of a map entry list. -/
def gsizeM : List (Str × GoVal) → Nat
  | [] => 0
  | (_, v) :: r => 2 + gsize v + gsizeM r

end

/-! ### Emptiness (`isEmpty` of src/slog/utils.go) -/

mutual

/-- `isEmpty` of the source: the `omitempty` zero-value test.  On structs it
first consults the `IsZeroer` capability, then recursively requires all
(exported) fields empty; the model treats every declared field as exported. -/
def isEmpty : GoVal → Bool
  | .varr l => l.length = 0
  | .vmap l => l.length = 0
  | .vstr s => s.length = 0
  | .vbool b => !b
  | .vint n => n = 0
  | .vfloat q => q = 0
  | .vptr _ => false
  | .vptrNil => true
  | .vnil => true
  | .vstruct _ caps fields =>
    match caps.isZero with
    | some b => b
    | none => isEmptyFields fields
  | .vother => false

/-- Recursive all-fields-empty check of `isEmpty`'s struct case. -/
def isEmptyFields : List (FieldMeta × GoVal) → Bool
  | [] => true
  | (_, v) :: r => isEmpty v && isEmptyFields r

end

/-! ### Struct metadata (`getStructInfo` of the source)

The source computes this once per type and caches it behind a double-checked
lock; the cache is behaviourally transparent (same `structInfo` every time),
so the model recomputes it per use. -/

/-- Per-field record of `structInfo.fields` (`fieldInfo` of the source), with
the field's runtime value in place of the source's `index` into the struct.
A `log`-tagged field carries parsed `opts` and empty `jsonName`; a field
carrying only a `json` tag carries zero-valued `opts` (in particular
`opts.Name = ""`) and its parsed `jsonName`/`jsonOpts` — exactly the zero
values the source leaves in the respective branches. -/
structure fieldInfo where
  fname : Str
  opts : fieldOptions := {}
  jsonName : Str := []
  jsonOpts : Str := []
  value : GoVal
  deriving Repr

/-- The field-scanning loop of `getStructInfo`: `log`-tagged fields are
appended with parsed options; untagged fields with a nonempty `json` tag are
appended with the json name/options split at the first comma. -/
def buildFields : List (FieldMeta × GoVal) → List fieldInfo
  | [] => []
  | (meta, v) :: rest =>
    match meta.logTag with
    | some t =>
      { fname := meta.fname
        opts := parseFieldOptions t meta.fname meta.isStructType
        value := v } :: buildFields rest
    | none =>
      if meta.jsonTag ≠ [] then
        let named :=
          match meta.jsonTag.findIdx? (· = ',') with
          | some i => (meta.jsonTag.take i, meta.jsonTag.drop (i + 1))
          | none => (meta.jsonTag, [])
        { fname := meta.fname
          jsonName := named.1
          jsonOpts := named.2
          value := v } :: buildFields rest
      else buildFields rest

/-- `structInfo.hasLogTag`: some declared field carries the `log` tag (even
`log:"-"` flips it). -/
def hasLogTagB (fields : List (FieldMeta × GoVal)) : Bool :=
  fields.any (fun p => p.1.logTag.isSome)

/-! ### Sensitive-data heuristic and error strings -/

/-- The fixed keyword list of `containsSensitiveData`. -/
def sensitiveFieldNames : List Str :=
  [str "password", str "passwd", str "pwd", str "secret", str "token",
   str "key", str "credential", str "auth", str "private", str "credit",
   str "ssn", str "phone", str "email", str "address", str "card", str "bank"]

/-- Longest run of consecutive decimal digits in a string (used to model the
unanchored Go regexp `\d{11}`, which matches iff some run reaches 11). -/
def maxDigitRun (s : Str) : Nat :=
  (s.foldl (fun acc c =>
    if isDigitChar c then (max acc.1 (acc.2 + 1), acc.2 + 1) else (acc.1, 0))
    ((0 : Nat), (0 : Nat))).1

/-- Four leading decimal digits: consume them, else fail (one `\d{4}` group
of the credit-card regexp). -/
def digits4 : Str → Option Str
  | c1 :: c2 :: c3 :: c4 :: rest =>
    if isDigitChar c1 && isDigitChar c2 && isDigitChar c3 && isDigitChar c4 then
      some rest
    else none
  | _ => none

/-- Separator class `[-\s]` of the credit-card regexp. -/
def isSepChar (c : Char) : Bool := c = '-' ∨ isSpaceChar c

/-- Match `\d{4}([-\s]?\d{4}){k}` at the head of the string (NFA semantics:
an optional separator is tried both ways). -/
def ccFrom : Nat → Str → Bool
  | k, l =>
    match digits4 l with
    | none => false
    | some rest =>
      match k with
      | 0 => true
      | k' + 1 =>
        ccFrom k' rest ||
          (match rest with
           | c :: rest' => isSepChar c && ccFrom k' rest'
           | [] => false)

/-- Unanchored match of the credit-card regexp
`\d{4}[-\s]?\d{4}[-\s]?\d{4}[-\s]?\d{4}`. -/
def ccMatch (s : Str) : Bool :=
  s.tails.any (ccFrom 3)

/-- `containsSensitiveData` of the source. -/
def containsSensitiveData (fieldName value : Str) : Bool :=
  let lowerFieldName := toLowerStr fieldName
  sensitiveFieldNames.any (fun kw => strContains lowerFieldName kw) ||
  (strContains value (str "@") && strContains value (str ".")) ||
  (11 ≤ maxDigitRun value) ||
  ccMatch value

/-- Decimal rendering of a natural number. -/
def natToStr (n : Nat) : Str := (toString n).data

/-- Decimal rendering of an integer (`%d`). -/
def intToStr (n : Int) : Str := (toString n).data

/-- `%f`-style rendering of a float, abstracted to six fixed decimals of the
exact rational (no claim inspects this text). -/
def floatToStr (q : ℚ) : Str :=
  let sign : Str := if q < 0 then str "-" else []
  let m : Nat := (|q| * 1000000).floor.toNat
  let ip := m / 1000000
  let fr := m % 1000000
  let frDigits := natToStr fr
  sign ++ natToStr ip ++ str "." ++ List.replicate (6 - frDigits.length) '0' ++ frDigits

/-- `safeValueToString` of the source, with a structural depth bound in place
of Go's unbounded pointer recursion (the bound is only reachable on
pointer-to-pointer chains longer than the heap, where the Go original would
overflow its stack; no claim exercises that corner). -/
def safeValueToString (heap : List GoVal) : Nat → GoVal → Str
  | _, .vstr s => s
  | _, .vint n => intToStr n
  | _, .vfloat q => floatToStr q
  | _, .vbool b => if b then str "true" else str "false"
  | _, .vnil => str "<invalid>"
  | _, .vptrNil => str "<nil>"
  | fuel + 1, .vptr a =>
    match heap[a]? with
    | some v => safeValueToString heap fuel v
    | none => str "<nil>"
  | 0, .vptr _ => str "<invalid>"
  | _, .varr l => str "slice[len=" ++ natToStr l.length ++ str "]"
  | _, .vmap l => str "map[len=" ++ natToStr l.length ++ str "]"
  | _, .vstruct t _ _ => t ++ str "\x7b...\x7d"
  | _, .vother => str "<other>"

/-- `createErrorString` of the source: the field-level error-fallback text. -/
def createErrorString (heap : List GoVal) (fieldName : Str) (fv : GoVal) (err : Str) : Str :=
  let valueStr := safeValueToString heap (heap.length + 1) fv
  let valueStr := if containsSensitiveData fieldName valueStr then str "<sensitive>" else valueStr
  str "FIELD_SERIALIZE_ERROR\x7bfield:" ++ fieldName ++ str ", value:" ++ valueStr ++
    str ", error:" ++ err ++ str "\x7d"

/-- `MarshalError.Error()` of the source, rendered at construction time (the
program only consumes errors through their message). -/
def marshalErrMsg (tname fieldName err : Str) : Str :=
  if fieldName ≠ [] then
    str "log: marshal field " ++ fieldName ++ str " of type " ++ tname ++ str ": " ++ err
  else
    str "log: marshal type " ++ tname ++ str ": " ++ err

/-- The plain message of the cyclic-reference error raised by the cycle
guard (`fmt.Errorf("cyclic reference detected")`). -/
def cyclicErrText : Str := str "cyclic reference detected"

/-- Message of `fmt.Errorf("serializer '%s' not found", name)`. -/
def serNotFoundMsg (name : Str) : Str :=
  str "serializer '" ++ name ++ str "' not found"

/-! ## Options, context and output maps -/

/-- `Options` of the source.  The source field `Prefix` is rendered
`PrefixStr`. -/
structure Options where
  DisableLoggerInterface : Bool := false
  DisableJSONFallback : Bool := false
  OmitEmptyByDefault : Bool := false
  MaskSensitive : Bool := false
  Indent : Str := []
  PrefixStr : Str := []
  EnableErrorFallback : Bool := false
  Level : Nat := 0
  deriving Repr

/-- The defaults `MarshalWithOpts` starts from before applying the caller's
option functions (`MaskSensitive: false, EnableErrorFallback: true,
Level: INFO`). -/
def defaultOptions : Options :=
  { MaskSensitive := false, EnableErrorFallback := true, Level := 1 }

/-- A registered serializer (`SerializerFunc`): value to encoded bytes. -/
abbrev SerFunc := GoVal → Except Str Str

/-- The process-wide state an encode call reads: the heap backing pointers,
the eager and lazy serializer registries, the mask registry, and the per-call
options.  Registries are modelled as lookup functions (their concurrent-map
synchronization is behaviourally transparent to a single call). -/
structure Ctx where
  heap : List GoVal := []
  serReg : Str → Option SerFunc := fun _ => none
  lazySerReg : Str → Option SerFunc := fun _ => none
  maskReg : Str → Option (Str → Str) := fun _ => none
  opts : Options := {}

/-- `getSer` of the source: eager-registry lookup. -/
def getSer (ctx : Ctx) (name : Str) : Option SerFunc := ctx.serReg name

/-- `getLazySerializer` of the source: re-check the eager registry, then the
lazy registry; the guarded create-once/promote machinery returns exactly the
factory's function, which is what the model stores in `lazySerReg`. -/
def getLazySerializer (ctx : Ctx) (name : Str) : Option SerFunc :=
  match ctx.serReg name with
  | some f => some f
  | none => ctx.lazySerReg name

/-- Output object under construction (`map[string]any`), insertion-ordered;
`minsert` is Go's `m[k] = v` (replace if present, else append). -/
abbrev MapT := List (Str × Node)

/-- Go map assignment `m[k] = v` on the insertion-ordered model. -/
def minsert (m : MapT) (k : Str) (v : Node) : MapT :=
  match m with
  | [] => [(k, v)]
  | (k', v') :: rest => if k' = k then (k, v) :: rest else (k', v') :: minsert rest k v

/-! ## Post-processor -/

/-- `math.Round`: round half away from zero. -/
def roundAway (q : ℚ) : ℤ :=
  if 0 ≤ q then ⌊q + 1 / 2⌋ else -⌊-q + 1 / 2⌋

/-- `math.Round(f*10^p)/10^p` of the precision step, on exact rationals. -/
def roundPrec (q : ℚ) (p : ℤ) : ℚ :=
  let mult : ℚ := (10 : ℚ) ^ p.toNat
  (roundAway (q * mult) : ℚ) / mult

/-- `fmt.Sprintf("%v", val)` of the force-string step.  Composite values and
floats get abstracted renderings (no claim inspects those texts). -/
def goSprint : Node → Str
  | .nstr s => s
  | .nbool b => if b then str "true" else str "false"
  | .nint n => intToStr n
  | .nfloat q => floatToStr q
  | .raw b => b
  | .narr _ => str "<slice>"
  | .nmap _ => str "<map>"

/-- `applyFieldPostProcessing` of the source: mask, then precision, then
force-string, then insert.  The two source branches for `float32`/`float64`
are merged into the single rational float of the model; `fv` (the raw field
value) is passed through unused exactly as in the source. -/
def applyFieldPostProcessing (ctx : Ctx) (fi : fieldInfo) (fieldName : Str)
    (fv : GoVal) (val : Option Node) (m : MapT) : MapT :=
  match val with
  | none => m
  | some v0 =>
    let v1 :=
      if ctx.opts.MaskSensitive || fi.opts.Mask ≠ [] then
        match v0 with
        | .nstr s => Node.nstr (getMask ctx.maskReg fi.opts.Mask s)
        | _ => v0
      else v0
    let v2 :=
      if fi.opts.Precision > 0 then
        match v1 with
        | .nfloat q => Node.nfloat (roundPrec q fi.opts.Precision)
        | _ => v1
      else v1
    let v3 := if fi.opts.ForceString then Node.nstr (goSprint v2) else v2
    minsert m fi.opts.Name v3

/-- The masking step of the post-processor in isolation (first step). -/
def maskStep (ctx : Ctx) (o : fieldOptions) (v : Node) : Node :=
  if ctx.opts.MaskSensitive || o.Mask ≠ [] then
    match v with
    | .nstr s => Node.nstr (getMask ctx.maskReg o.Mask s)
    | _ => v
  else v

/-- The precision step of the post-processor in isolation (second step). -/
def precisionStep (o : fieldOptions) (v : Node) : Node :=
  if o.Precision > 0 then
    match v with
    | .nfloat q => Node.nfloat (roundPrec q o.Precision)
    | _ => v
  else v

/-- The force-string step of the post-processor in isolation (third step). -/
def forceStringStep (o : fieldOptions) (v : Node) : Node :=
  if o.ForceString then Node.nstr (goSprint v) else v

/-- Runtime struct-kind test (`fv.Kind() == reflect.Struct`). -/
def isStructKind : GoVal → Bool
  | .vstruct _ _ _ => true
  | _ => false

/-- `encodeWithSerializer` of the source: `(handled, result)`.  Not handled
iff the field names no serializer; otherwise the eager registry is consulted
first, then the lazy one, and both error paths honour `EnableErrorFallback`. -/
def encodeWithSerializer (ctx : Ctx) (fi : fieldInfo) (m : MapT) :
    Bool × Except Str MapT :=
  if fi.opts.Serializer = [] then (false, .ok m)
  else
    let fn? :=
      match getSer ctx fi.opts.Serializer with
      | some f => some f
      | none => getLazySerializer ctx fi.opts.Serializer
    match fn? with
    | none =>
      if ctx.opts.EnableErrorFallback then
        (true, .ok (minsert m fi.opts.Name
          (.nstr (createErrorString ctx.heap fi.fname fi.value
            (serNotFoundMsg fi.opts.Serializer)))))
      else
        (true, .error (marshalErrMsg (typeNameOf fi.value) fi.fname
          (serNotFoundMsg fi.opts.Serializer)))
    | some fn =>
      match fn fi.value with
      | .error e =>
        if ctx.opts.EnableErrorFallback then
          (true, .ok (minsert m fi.opts.Name
            (.nstr (createErrorString ctx.heap fi.fname fi.value e))))
        else (true, .error (marshalErrMsg (typeNameOf fi.value) fi.fname e))
      | .ok b => (true, .ok (minsert m fi.opts.Name (.raw b)))

/-! ## Termination bookkeeping for the resolver

The Go resolver terminates on cyclic heaps because each pointer descent
shrinks the set of unvisited heap addresses and every other recursion
shrinks the value.  The definitions below package that measure. -/

/-- Number of heap addresses not yet on the visited path. -/
def unvisitedCount (heap : List GoVal) (visited : List Nat) : Nat :=
  ((Finset.range heap.length).filter (fun x => x ∉ visited)).card

/-- Weighted size of a `fieldInfo` list (termination measure for the
per-field loops). -/
def gsizeFIL : List fieldInfo → Nat
  | [] => 0
  | fi :: r => 5 + gsize fi.value + gsizeFIL r

/-- A value stored in the heap is strictly smaller than the whole heap. -/
def gsizeL_lookup : ∀ (heap : List GoVal) (a : Nat) (v : GoVal),
    heap[a]? = some v → 2 + gsize v ≤ gsizeL heap := by
  intro heap
  induction heap with
  | nil => intro a v h; simp at h
  | cons hd tl ih =>
    intro a v h
    cases a with
    | zero => simp at h; subst h; simp only [gsizeL]; omega
    | succ a' =>
      simp only [List.getElem?_cons_succ] at h
      have := ih a' v h
      simp [gsizeL]; omega

/-- Visiting a fresh in-range address strictly shrinks the unvisited set. -/
def unvisited_cons_lt (heap : List GoVal) (visited : List Nat) (a : Nat)
    (hlen : a < heap.length) (hnot : a ∉ visited) :
    unvisitedCount heap (a :: visited) < unvisitedCount heap visited := by
  apply Finset.card_lt_card
  rw [Finset.ssubset_iff_of_subset]
  · exact ⟨a, by simp [hlen, hnot], by simp⟩
  · intro x hx
    simp only [Finset.mem_filter, Finset.mem_range, List.mem_cons] at hx ⊢
    exact ⟨hx.1, fun hm => hx.2 (Or.inr hm)⟩

/-- The parsed field list is no heavier than the raw field list. -/
def gsizeFIL_buildFields : ∀ fields : List (FieldMeta × GoVal),
    gsizeFIL (buildFields fields) ≤ gsizeF fields := by
  intro fields
  induction fields with
  | nil => simp [buildFields, gsizeFIL, gsizeF]
  | cons p rest ih =>
    obtain ⟨meta, v⟩ := p
    simp only [buildFields, gsizeF]
    cases meta.logTag with
    | some t => simp [gsizeFIL]; omega
    | none =>
      by_cases hj : meta.jsonTag ≠ []
      · simp [hj, gsizeFIL]; omega
      · simp at hj; simp [hj, gsizeFIL]; omega

/-- Measure arithmetic for the pointer-descent step. -/
def muPtrStep (heap : List GoVal) (visited : List Nat) (a : Nat) (v : GoVal)
    (hh : heap[a]? = some v) (h : a ∉ visited) (w : Nat) :
    unvisitedCount heap (a :: visited) * (gsizeL heap + 2) + (1 + gsize v) <
      unvisitedCount heap visited * (gsizeL heap + 2) + w := by
  have hlen : a < heap.length := by
    by_contra hc
    push_neg at hc
    rw [List.getElem?_eq_none hc] at hh
    exact Option.noConfusion hh
  have hU : unvisitedCount heap (a :: visited) + 1 ≤ unvisitedCount heap visited :=
    unvisited_cons_lt heap visited a hlen h
  have hg : 2 + gsize v ≤ gsizeL heap := gsizeL_lookup heap a v hh
  have step1 : unvisitedCount heap (a :: visited) * (gsizeL heap + 2) + (1 + gsize v) <
      (unvisitedCount heap (a :: visited) + 1) * (gsizeL heap + 2) := by
    have : (unvisitedCount heap (a :: visited) + 1) * (gsizeL heap + 2) =
        unvisitedCount heap (a :: visited) * (gsizeL heap + 2) + (gsizeL heap + 2) := by ring
    omega
  have step2 : (unvisitedCount heap (a :: visited) + 1) * (gsizeL heap + 2) ≤
      unvisitedCount heap visited * (gsizeL heap + 2) :=
    Nat.mul_le_mul_right _ hU
  omega

/-! ## The value resolver / priority engine

The mutually recursive procedures of the source: `encodeReflect` (pointer
stripping, cycle guard, kind dispatch), `encodeStruct` (struct-level
capability checks, tag mode, json fallback), the per-field loops, and the
field priority chain `encodeField` → `encodeWithSerializer` →
Logger → `encodeBasic` (inline / general resolution + post-processing).
`visited` is the per-call cycle-guard set; a callee receives it extended by
the pointers on the path to it, and siblings receive identical sets, exactly
the insert-then-`defer`-delete discipline of the Go code. -/

mutual

/-- `encodeReflect` of the source: strip pointer layers through the cycle
guard, then dispatch on the value's kind. -/
def encodeReflect (ctx : Ctx) (visited : List Nat) : GoVal → Except Str (Option Node)
  | .vptr a =>
    if h : a ∈ visited then
      .error (marshalErrMsg (str "ptr") [] cyclicErrText)
    else
      match hh : ctx.heap[a]? with
      | some v => encodeReflect ctx (a :: visited) v
      | none => .ok none
  | .vptrNil => .ok none
  | .vstruct tname caps fields => encodeStruct ctx visited tname caps fields
  | .varr elems =>
    if elems.length = 0 ∧ ctx.opts.OmitEmptyByDefault then .ok none
    else
      match encodeArrElems ctx visited elems with
      | .error e => .error e
      | .ok ns => .ok (some (.narr ns))
  | .vmap entries =>
    if entries.length = 0 ∧ ctx.opts.OmitEmptyByDefault then .ok none
    else
      match encodeMapEntries ctx visited entries [] with
      | .error e => .error e
      | .ok m => .ok (some (.nmap m))
  | .vstr s => .ok (some (.nstr s))
  | .vbool b => .ok (some (.nbool b))
  | .vint n => .ok (some (.nint n))
  | .vfloat q => .ok (some (.nfloat q))
  | .vnil => .ok none
  | .vother => .ok none
termination_by v =>
  unvisitedCount ctx.heap visited * (gsizeL ctx.heap + 2) + (1 + gsize v)
decreasing_by
  all_goals
    first
      | exact muPtrStep ctx.heap visited a v hh h _
      | (apply Nat.add_lt_add_left
         try simp only [gsize, gsizeL, gsizeM, gsizeF, gsizeFIL]
         try have hB := gsizeFIL_buildFields fields
         omega)

/-- The slice/array element loop of `encodeReflect` (sub-encoders share the
visited set and options; nil sub-results are skipped). -/
def encodeArrElems (ctx : Ctx) (visited : List Nat) : List GoVal → Except Str (List Node)
  | [] => .ok []
  | v :: rest =>
    match encodeReflect ctx visited v with
    | .error e => .error e
    | .ok none => encodeArrElems ctx visited rest
    | .ok (some n) =>
      match encodeArrElems ctx visited rest with
      | .error e => .error e
      | .ok ns => .ok (n :: ns)
termination_by l =>
  unvisitedCount ctx.heap visited * (gsizeL ctx.heap + 2) + gsizeL l
decreasing_by
  all_goals
    first
      | exact muPtrStep ctx.heap visited a v hh h _
      | (apply Nat.add_lt_add_left
         try simp only [gsize, gsizeL, gsizeM, gsizeF, gsizeFIL]
         try have hB := gsizeFIL_buildFields fields
         omega)

/-- The string-keyed map loop of `encodeReflect` (non-string keys do not
occur in the model; the source skips them). -/
def encodeMapEntries (ctx : Ctx) (visited : List Nat) :
    List (Str × GoVal) → MapT → Except Str MapT
  | [], m => .ok m
  | (k, v) :: rest, m =>
    match encodeReflect ctx visited v with
    | .error e => .error e
    | .ok none => encodeMapEntries ctx visited rest m
    | .ok (some n) => encodeMapEntries ctx visited rest (minsert m k n)
termination_by l m =>
  unvisitedCount ctx.heap visited * (gsizeL ctx.heap + 2) + gsizeM l
decreasing_by
  all_goals
    first
      | exact muPtrStep ctx.heap visited a v hh h _
      | (apply Nat.add_lt_add_left
         try simp only [gsize, gsizeL, gsizeM, gsizeF, gsizeFIL]
         try have hB := gsizeFIL_buildFields fields
         omega)

/-- `encodeStruct` of the source: struct-level custom marshaler, then tag
mode, then `json.Marshaler`, then json-tag fallback, then skip. -/
def encodeStruct (ctx : Ctx) (visited : List Nat) (tname : Str) (caps : Caps)
    (fields : List (FieldMeta × GoVal)) : Except Str (Option Node) :=
  match (if ctx.opts.DisableLoggerInterface then none else caps.marshalLog) with
  | some (.ok b) => .ok (some (.raw b))
  | some (.error e) => .error (marshalErrMsg tname [] e)
  | none =>
    let info := buildFields fields
    if hasLogTagB fields then
      match encodeFields ctx visited tname info [] with
      | .error e => .error e
      | .ok m => .ok (some (.nmap m))
    else
      match (if ctx.opts.DisableJSONFallback then none else caps.marshalJSON) with
      | some (.ok b) => .ok (some (.raw b))
      | some (.error e) => .error (marshalErrMsg tname [] e)
      | none =>
        if ctx.opts.DisableJSONFallback then .ok none
        else
          match encodeJsonFields ctx visited tname info [] with
          | .error e => .error e
          | .ok m => .ok (some (.nmap m))
termination_by
  unvisitedCount ctx.heap visited * (gsizeL ctx.heap + 2) + (1 + gsizeF fields)
decreasing_by
  all_goals
    first
      | exact muPtrStep ctx.heap visited a v hh h _
      | (apply Nat.add_lt_add_left
         try simp only [gsize, gsizeL, gsizeM, gsizeF, gsizeFIL]
         try have hB := gsizeFIL_buildFields fields
         omega)

/-- The tag-mode field loop of `encodeStruct`: each field-level error is
wrapped in a `MarshalError` naming the struct type and field. -/
def encodeFields (ctx : Ctx) (visited : List Nat) (tname : Str) :
    List fieldInfo → MapT → Except Str MapT
  | [], m => .ok m
  | fi :: rest, m =>
    match encodeField ctx visited fi m with
    | .error e => .error (marshalErrMsg tname fi.fname e)
    | .ok m' => encodeFields ctx visited tname rest m'
termination_by l m =>
  unvisitedCount ctx.heap visited * (gsizeL ctx.heap + 2) + gsizeFIL l
decreasing_by
  all_goals
    first
      | exact muPtrStep ctx.heap visited a v hh h _
      | (apply Nat.add_lt_add_left
         try simp only [gsize, gsizeL, gsizeM, gsizeF, gsizeFIL]
         try have hB := gsizeFIL_buildFields fields
         omega)

/-- The json-tag fallback loop of `encodeStruct` (step 4 of the source). -/
def encodeJsonFields (ctx : Ctx) (visited : List Nat) (tname : Str) :
    List fieldInfo → MapT → Except Str MapT
  | [], m => .ok m
  | fi :: rest, m =>
    if fi.jsonName = [] ∨ fi.jsonName = str "-" then
      encodeJsonFields ctx visited tname rest m
    else if tagOptsContains fi.jsonOpts (str "omitempty") ∧ isEmpty fi.value then
      encodeJsonFields ctx visited tname rest m
    else
      match encodeReflect ctx visited fi.value with
      | .error e => .error (marshalErrMsg tname fi.fname e)
      | .ok none => encodeJsonFields ctx visited tname rest m
      | .ok (some n) => encodeJsonFields ctx visited tname rest (minsert m fi.jsonName n)
termination_by l m =>
  unvisitedCount ctx.heap visited * (gsizeL ctx.heap + 2) + gsizeFIL l
decreasing_by
  all_goals
    first
      | exact muPtrStep ctx.heap visited a v hh h _
      | (apply Nat.add_lt_add_left
         try simp only [gsize, gsizeL, gsizeM, gsizeF, gsizeFIL]
         try have hB := gsizeFIL_buildFields fields
         omega)

/-- `encodeField` of the source: the per-field priority chain.  Order:
`log:"-"` drop, conditional-suppress capability, omit-empty, named
serializer, field-level custom marshaler, basic encoding. -/
def encodeField (ctx : Ctx) (visited : List Nat) (fi : fieldInfo) (m : MapT) :
    Except Str MapT :=
  if fi.opts.Name = str "-" then .ok m
  else
    match shouldLogOf fi.value with
    | some false => .ok m
    | some true =>
      match encodeReflect ctx visited fi.value with
      | .error e =>
        if ctx.opts.EnableErrorFallback then
          .ok (minsert m fi.opts.Name
            (.nstr (createErrorString ctx.heap fi.fname fi.value e)))
        else .error e
      | .ok none => .ok m
      | .ok (some n) => .ok (minsert m fi.opts.Name n)
    | none =>
      if (fi.opts.OmitEmpty || ctx.opts.OmitEmptyByDefault) && isEmpty fi.value then
        .ok m
      else
        match hs : encodeWithSerializer ctx fi m with
        | (true, r) => r
        | (false, _) =>
          match (if ctx.opts.DisableLoggerInterface then none else marshalLogOf fi.value) with
          | some (.ok b) => .ok (minsert m fi.opts.Name (.raw b))
          | some (.error e) =>
            if ctx.opts.EnableErrorFallback then
              .ok (minsert m fi.opts.Name
                (.nstr (createErrorString ctx.heap fi.fname fi.value e)))
            else .error e
          | none => encodeBasic ctx visited fi m
termination_by
  unvisitedCount ctx.heap visited * (gsizeL ctx.heap + 2) + (4 + gsize fi.value)
decreasing_by
  all_goals
    first
      | exact muPtrStep ctx.heap visited a v hh h _
      | (apply Nat.add_lt_add_left
         try simp only [gsize, gsizeL, gsizeM, gsizeF, gsizeFIL]
         try have hB := gsizeFIL_buildFields fields
         omega)

/-- `encodeBasic` of the source: inline handling for struct-kind values,
else general resolution followed by the post-processor. -/
def encodeBasic (ctx : Ctx) (visited : List Nat) (fi : fieldInfo) (m : MapT) :
    Except Str MapT :=
  if fi.opts.Inline ∧ isStructKind fi.value then
    encodeInlineField ctx visited fi m
  else
    match encodeReflect ctx visited fi.value with
    | .error e =>
      if ctx.opts.EnableErrorFallback then
        .ok (minsert m fi.opts.Name
          (.nstr (createErrorString ctx.heap fi.fname fi.value e)))
      else .error e
    | .ok out => .ok (applyFieldPostProcessing ctx fi fi.fname fi.value out m)
termination_by
  unvisitedCount ctx.heap visited * (gsizeL ctx.heap + 2) + (3 + gsize fi.value)
decreasing_by
  all_goals
    first
      | exact muPtrStep ctx.heap visited a v hh h _
      | (apply Nat.add_lt_add_left
         try simp only [gsize, gsizeL, gsizeM, gsizeF, gsizeFIL]
         try have hB := gsizeFIL_buildFields fields
         omega)

/-- `encodeInlineField` of the source: resolve the struct and splice map
entries into the parent; any non-map result is dropped. -/
def encodeInlineField (ctx : Ctx) (visited : List Nat) (fi : fieldInfo) (m : MapT) :
    Except Str MapT :=
  match encodeReflect ctx visited fi.value with
  | .error e =>
    if ctx.opts.EnableErrorFallback then
      .ok (minsert m fi.opts.Name
        (.nstr (createErrorString ctx.heap fi.fname fi.value e)))
    else .error e
  | .ok (some (.nmap entries)) =>
    .ok (entries.foldl (fun acc p => minsert acc p.1 p.2) m)
  | .ok _ => .ok m
termination_by
  unvisitedCount ctx.heap visited * (gsizeL ctx.heap + 2) + (2 + gsize fi.value)
decreasing_by
  all_goals
    first
      | exact muPtrStep ctx.heap visited a v hh h _
      | (apply Nat.add_lt_add_left
         try simp only [gsize, gsizeL, gsizeM, gsizeF, gsizeFIL]
         try have hB := gsizeFIL_buildFields fields
         omega)

end

/-! ## Top-level driver -/

/-- `encoder.encode` of the source: top-level conditional-suppress check,
top-level custom-marshal check, then reflective resolution with a fresh
(empty) visited set. -/
def encodeTop (ctx : Ctx) (v : GoVal) : Except Str (Option Node) :=
  if shouldLogOf v = some false then .ok none
  else
    match (if ctx.opts.DisableLoggerInterface then none else marshalLogOf v) with
    | some (.ok b) => .ok (some (.raw b))
    | some (.error e) => .error e
    | none => encodeReflect ctx [] v

/-- Minimal JSON string quoting (escaping beyond the quotes is abstracted;
no claim inspects quoted output). -/
def quoteJson (s : Str) : Str := '"' :: s ++ ['"']

mutual

/-- Plain-text JSON emission of the intermediate tree (the standard-library
`json.Encoder` step; indentation and key sorting are abstracted away, and no
claim inspects rendered composite output). -/
def jsonRender : Node → Str
  | .nbool b => if b then str "true" else str "false"
  | .nint n => intToStr n
  | .nfloat q => floatToStr q
  | .nstr s => quoteJson s
  | .raw b => b
  | .narr l => '[' :: jsonRenderList l ++ [']']
  | .nmap l => '\x7b' :: jsonRenderMap l ++ ['\x7d']

/-- Comma-joined array elements. -/
def jsonRenderList : List Node → Str
  | [] => []
  | [n] => jsonRender n
  | n :: rest => jsonRender n ++ [','] ++ jsonRenderList rest

/-- Comma-joined object entries. -/
def jsonRenderMap : List (Str × Node) → Str
  | [] => []
  | [(k, n)] => quoteJson k ++ [':'] ++ jsonRender n
  | (k, n) :: rest => quoteJson k ++ [':'] ++ jsonRender n ++ [','] ++ jsonRenderMap rest

end

/-- `MarshalWithOpts` of the source, from the point where the options have
been assembled: encode, then emit — with the special case that a nil
resolver output becomes the literal `null` before any JSON encoding. -/
def marshalWithOpts (ctx : Ctx) (v : GoVal) : Except Str Str :=
  match encodeTop ctx v with
  | .error e => .error e
  | .ok none => .ok (str "null")
  | .ok (some n) => .ok (jsonRender n)

/-- Concrete test fixture: a struct whose tagged field `p` points back at
the struct's own heap cell 0 and whose sibling `n` is a plain string. -/
def demoSelfStruct : GoVal :=
  .vstruct (str "S") {}
    [(⟨str "P", some (str "p"), [], false⟩, .vptr 0),
     (⟨str "N", some (str "n"), [], false⟩, .vstr (str "hi"))]

/-! ## Helper lemmas -/

theorem strContains_of_parts (s pat a b : Str) (h : s = a ++ pat ++ b) :
    strContains s pat = true := by
  subst h
  rw [strContains, decide_eq_true_eq]
  exact ⟨a, b, rfl⟩

theorem strContains_mono_left (a b pat : Str) (h : strContains b pat = true) :
    strContains (a ++ b) pat = true := by
  rw [strContains, decide_eq_true_eq] at h ⊢
  obtain ⟨s, t, hst⟩ := h
  exact ⟨a ++ s, t, by rw [← hst]; simp⟩

/-- A `MarshalError` wrap preserves any substring of the inner message. -/
theorem strContains_marshalErrMsg (tname fieldName err pat : Str)
    (h : strContains err pat = true) :
    strContains (marshalErrMsg tname fieldName err) pat = true := by
  rw [marshalErrMsg]
  split
  · exact strContains_mono_left _ _ _ h
  · exact strContains_mono_left _ _ _ h

/-- The field-level error-fallback text always carries its fixed marker. -/
theorem createErrorString_marker (heap : List GoVal) (f : Str) (v : GoVal) (e : Str) :
    strContains (createErrorString heap f v e) (str "FIELD_SERIALIZE_ERROR") = true := by
  apply strContains_of_parts _ _ []
    (str "\x7bfield:" ++ f ++ str ", value:" ++
      (if containsSensitiveData f (safeValueToString heap (heap.length + 1) v) then
        str "<sensitive>" else safeValueToString heap (heap.length + 1) v) ++
      str ", error:" ++ e ++ str "\x7d")
  rfl

/-- The field-level error-fallback text carries the inner error message. -/
theorem createErrorString_err (heap : List GoVal) (f : Str) (v : GoVal) (e : Str) :
    strContains (createErrorString heap f v e) e = true := by
  apply strContains_of_parts _ _
    (str "FIELD_SERIALIZE_ERROR\x7bfield:" ++ f ++ str ", value:" ++
      (if containsSensitiveData f (safeValueToString heap (heap.length + 1) v) then
        str "<sensitive>" else safeValueToString heap (heap.length + 1) v) ++
      str ", error:")
    (str "\x7d")
  rfl

/-- The not-found message carries the serializer's name. -/
theorem serNotFoundMsg_name (name : Str) :
    strContains (serNotFoundMsg name) name = true := by
  apply strContains_of_parts _ _ (str "serializer '") (str "' not found")
  rw [serNotFoundMsg]

/-- The not-found message carries the text `not found`. -/
theorem serNotFoundMsg_notfound (name : Str) :
    strContains (serNotFoundMsg name) (str "not found") = true := by
  apply strContains_of_parts _ _ (str "serializer '" ++ name ++ str "' ") []
  rw [serNotFoundMsg]
  simp only [str, List.append_assoc, List.append_nil]
  rfl

/-! ## Claim theorems -/

/-- C9: encoding a nil top-level value returns exactly the JSON literal
`null` with no error, under every option configuration (and every heap and
registry state): the conditional-suppress and custom-marshal probes find no
capability on a nil interface value, the resolver's invalid-kind default
yields a nil output, and the driver turns a nil output into the literal
`null` before any JSON encoding. -/
theorem spec_C9_nil_null (ctx : Ctx) :
    marshalWithOpts ctx .vnil = .ok (str "null") := by
  rw [marshalWithOpts, encodeTop]
  simp [shouldLogOf, marshalLogOf, encodeReflect]

/-- Position of the first `'@'` after an `'@'`-free block. -/
theorem findIdxAt_append (b rest : Str) (hb : ∀ c ∈ b, ¬(c = '@')) (i : Nat) :
    List.findIdx? (fun c => c = '@') (b ++ '@' :: rest) i = some (i + b.length) := by
  induction b generalizing i with
  | nil => simp [List.findIdx?_cons]
  | cons c b' ih =>
    have hc : ¬(c = '@') := hb c (by simp)
    have ih' := ih (fun x hx => hb x (by simp [hx])) (i + 1)
    simp only [List.cons_append, List.findIdx?_cons, decide_eq_true_eq, hc, if_false]
    rw [ih']
    congr 1
    simp [List.length_cons]
    omega

/-- `findIdx?` misses on an `'@'`-free string. -/
theorem findIdxAt_none (s : Str) (hs : ∀ c ∈ s, ¬(c = '@')) (i : Nat) :
    List.findIdx? (fun c => c = '@') s i = none := by
  induction s generalizing i with
  | nil => simp
  | cons c s' ih =>
    have hc : ¬(c = '@') := hs c (by simp)
    simp only [List.findIdx?_cons, decide_eq_true_eq, hc, if_false]
    exact ih (fun x hx => hs x (by simp [hx])) (i + 1)

/-- C5 (amended): the built-in `phone` mask keeps the first 3 and last 4
characters of an 11-character string around `****` and collapses everything
else to `***`; the built-in `email` mask, on a string whose first `@` is
preceded by at least one character, keeps the first 3 characters (first 1
when fewer than 4 precede the `@`) then `***` then everything from the `@`
onward, and returns `***` on a string with no `@` — and also, contrary to
the claim as stated, on a string whose `@` is its first character. -/
theorem spec_C5_masks :
    (∀ s : Str, s.length = 11 →
        phoneMask s = s.take 3 ++ str "****" ++ s.drop (s.length - 4)) ∧
    (∀ s : Str, s.length ≠ 11 → phoneMask s = str "***") ∧
    (∀ b rest : Str, b ≠ [] → (∀ c ∈ b, ¬(c = '@')) →
        emailMask (b ++ '@' :: rest) =
          (if b.length < 4 then (b ++ '@' :: rest).take 1
           else (b ++ '@' :: rest).take 3) ++ str "***" ++ ('@' :: rest)) ∧
    (∀ s : Str, (∀ c ∈ s, ¬(c = '@')) → emailMask s = str "***") ∧
    (∀ rest : Str, emailMask ('@' :: rest) = str "***") := by
  refine ⟨?_, ?_, ?_, ?_, ?_⟩
  · intro s h
    rw [phoneMask, if_pos h, h]
  · intro s h
    rw [phoneMask, if_neg h]
  · intro b rest hb hnoAt
    have hidx : List.findIdx? (fun c => c = '@') (b ++ '@' :: rest) 0 = some b.length := by
      simpa using findIdxAt_append b rest hnoAt 0
    have hpos : 0 < b.length := List.length_pos.mpr hb
    have hdrop : (b ++ '@' :: rest).drop b.length = '@' :: rest := List.drop_left b _
    rw [emailMask]
    simp only [hidx, hpos, if_pos, gt_iff_lt]
    by_cases h4 : b.length > 3
    · rw [if_pos h4, if_neg (by omega), hdrop]
    · rw [if_neg h4, if_pos (by omega), hdrop]
  · intro s hs
    rw [emailMask]
    simp only [findIdxAt_none s hs 0]
  · intro rest
    rw [emailMask]
    simp [List.findIdx?_cons]

/-- C5, counterexample to the claim as stated: `"@ab"` contains `@`, so the
claim prescribes first-1-character + `***` + everything from the `@` onward
(`"@***@ab"`), but the code returns plain `"***"` because the `idx > 0`
guard excludes an `@` in first position. -/
theorem spec_C5_counterexample :
    emailMask (str "@ab") = str "***" ∧
    (str "@ab").take 1 ++ str "***" ++ str "@ab" ≠ str "***" := by
  constructor <;> decide

/-- C5 witness: the amended mask behaviours at concrete inputs. -/
theorem spec_C5_witness :
    phoneMask (str "13800138000") = str "138****8000" ∧
    emailMask (str "alice@example.com") = str "ali***@example.com" := by
  constructor
  · exact (spec_C5_masks.1 (str "13800138000") (by decide)).trans (by decide)
  · have e : str "alice@example.com" = str "alice" ++ '@' :: str "example.com" := by decide
    rw [e]
    exact (spec_C5_masks.2.2.1 (str "alice") (str "example.com")
      (by decide) (by decide)).trans (by decide)

/-- A tag-option segment matching none of the recognized forms leaves the
options unchanged (the `switch` has no default case). -/
theorem applySeg_noMatch (isS : Bool) (o : fieldOptions) (seg : Str)
    (h1 : ¬(trimSpace seg = str "omitempty"))
    (h2 : ¬(trimSpace seg = str "inline" ∧ isS = true))
    (h3 : ¬(trimSpace seg = str "string"))
    (h4 : (str "ser=").isPrefixOf (trimSpace seg) = false)
    (h5 : (str "mask=").isPrefixOf (trimSpace seg) = false)
    (h6 : (str "precision=").isPrefixOf (trimSpace seg) = false)
    (h7 : (str "format=").isPrefixOf (trimSpace seg) = false)
    (h8 : (str "unit=").isPrefixOf (trimSpace seg) = false) :
    applySeg isS o seg = o := by
  simp only [applySeg]
  simp [h1, h2, h3, h4, h5, h6, h7, h8]

/-- A segment whose processing is the identity can be dropped from the
option loop. -/
theorem applyOptions_skip (isS : Bool) (o : fieldOptions) (seg : Str)
    (l1 l2 : List Str) (hid : ∀ o', applySeg isS o' seg = o') :
    applyOptions isS o (l1 ++ seg :: l2) = applyOptions isS o (l1 ++ l2) := by
  simp only [applyOptions, List.foldl_append, List.foldl_cons, hid]

/-- A `precision=` segment whose value `strconv.Atoi` rejects is a no-op. -/
theorem applySeg_badPrecision (isS : Bool) (o : fieldOptions) (seg : Str)
    (hp : (str "precision=").isPrefixOf (trimSpace seg) = true)
    (hbad : atoi ((trimSpace seg).drop 10) = none) :
    applySeg isS o seg = o := by
  obtain ⟨t, ht⟩ := List.isPrefixOf_iff_prefix.mp hp
  have hbad2 : atoi t = none := by
    rw [← ht] at hbad
    simpa [str] using hbad
  simp only [applySeg, ← ht]
  simp [str, List.isPrefixOf_cons₂, hbad2]

/-- A `precision=` segment whose value `strconv.Atoi` accepts stores exactly
the parsed integer. -/
theorem applySeg_goodPrecision (isS : Bool) (o : fieldOptions) (seg : Str) (p : Int)
    (hp : (str "precision=").isPrefixOf (trimSpace seg) = true)
    (hgood : atoi ((trimSpace seg).drop 10) = some p) :
    applySeg isS o seg = { o with Precision := p } := by
  obtain ⟨t, ht⟩ := List.isPrefixOf_iff_prefix.mp hp
  have hgood2 : atoi t = some p := by
    rw [← ht] at hgood
    simpa [str] using hgood
  simp only [applySeg, ← ht]
  simp [str, List.isPrefixOf_cons₂, hgood2]

/-- `inline` never takes effect when the declared field type is not a
struct kind. -/
theorem applySeg_inline_nonstruct (o : fieldOptions) (seg : Str) :
    (applySeg false o seg).Inline = o.Inline := by
  simp only [applySeg]
  split_ifs <;> (try split) <;> simp_all

/-- The option loop preserves `Inline = false` on non-struct fields. -/
theorem applyOptions_inline_nonstruct (o : fieldOptions) (segs : List Str) :
    (applyOptions false o segs).Inline = o.Inline := by
  induction segs generalizing o with
  | nil => rfl
  | cons seg rest ih =>
    simp only [applyOptions, List.foldl_cons] at ih ⊢
    rw [ih, applySeg_inline_nonstruct]

/-- C8 (amended): the tag parser is a total function that raises no error;
a malformed (unparsable) `precision=` value is silently ignored, a
well-formed one stores exactly the parsed (possibly signed) integer,
unknown option segments are silently ignored, and `inline` is honored only
when the field's declared type is itself a struct.  (The claim's "parsed as
a non-negative integer" fails: a negative value parses and is stored, see
the counterexample.) -/
theorem spec_C8_tagOptions :
    (∀ (isS : Bool) (o : fieldOptions) (seg : Str) (l1 l2 : List Str),
      (str "precision=").isPrefixOf (trimSpace seg) = true →
      atoi ((trimSpace seg).drop 10) = none →
      applyOptions isS o (l1 ++ seg :: l2) = applyOptions isS o (l1 ++ l2)) ∧
    (∀ (isS : Bool) (o : fieldOptions) (seg : Str) (p : Int),
      (str "precision=").isPrefixOf (trimSpace seg) = true →
      atoi ((trimSpace seg).drop 10) = some p →
      (applySeg isS o seg).Precision = p) ∧
    (∀ (isS : Bool) (o : fieldOptions) (seg : Str) (l1 l2 : List Str),
      ¬(trimSpace seg = str "omitempty") →
      ¬(trimSpace seg = str "inline" ∧ isS = true) →
      ¬(trimSpace seg = str "string") →
      (str "ser=").isPrefixOf (trimSpace seg) = false →
      (str "mask=").isPrefixOf (trimSpace seg) = false →
      (str "precision=").isPrefixOf (trimSpace seg) = false →
      (str "format=").isPrefixOf (trimSpace seg) = false →
      (str "unit=").isPrefixOf (trimSpace seg) = false →
      applyOptions isS o (l1 ++ seg :: l2) = applyOptions isS o (l1 ++ l2)) ∧
    (∀ (tag sfName : Str), (parseFieldOptions tag sfName false).Inline = false) ∧
    (parseFieldOptions (str "addr,inline") (str "Addr") true).Inline = true := by
  refine ⟨?_, ?_, ?_, ?_, by decide⟩
  · intro isS o seg l1 l2 hp hbad
    exact applyOptions_skip isS o seg l1 l2 (fun o' => applySeg_badPrecision isS o' seg hp hbad)
  · intro isS o seg p hp hgood
    rw [applySeg_goodPrecision isS o seg p hp hgood]
  · intro isS o seg l1 l2 h1 h2 h3 h4 h5 h6 h7 h8
    exact applyOptions_skip isS o seg l1 l2
      (fun o' => applySeg_noMatch isS o' seg h1 h2 h3 h4 h5 h6 h7 h8)
  · intro tag sfName
    rw [parseFieldOptions]
    split_ifs with hdash
    · rfl
    · split
      · rw [applyOptions_inline_nonstruct]
      · rfl

/-- C8, counterexample to the claim as stated: `precision=-3` parses (Go's
`strconv.Atoi` accepts a sign), so the stored precision is the negative
integer `-3`, not a non-negative one. -/
theorem spec_C8_counterexample :
    (parseFieldOptions (str "f,precision=-3") (str "F") false).Precision = -3 ∧
    (parseFieldOptions (str "f,precision=-3") (str "F") false).Precision < 0 := by
  constructor <;> decide

/-- C8 witness: the amended parser behaviours at concrete inputs. -/
theorem spec_C8_witness :
    applyOptions false {} ([] ++ str "precision=zz" :: [str "omitempty"]) =
      applyOptions false {} ([] ++ [str "omitempty"]) ∧
    (applySeg false {} (str "precision=7")).Precision = 7 ∧
    applyOptions false {} ([] ++ str "wibble=3" :: [str "string"]) =
      applyOptions false {} ([] ++ [str "string"]) ∧
    (parseFieldOptions (str "f,inline") (str "F") false).Inline = false := by
  refine ⟨?_, ?_, ?_, ?_⟩
  · exact spec_C8_tagOptions.1 false {} (str "precision=zz") [] [str "omitempty"]
      (by decide) (by decide)
  · exact spec_C8_tagOptions.2.1 false {} (str "precision=7") 7 (by decide) (by decide)
  · exact spec_C8_tagOptions.2.2.1 false {} (str "wibble=3") [] [str "string"]
      (by decide) (by decide) (by decide) (by decide) (by decide) (by decide)
      (by decide) (by decide)
  · exact spec_C8_tagOptions.2.2.2.1 (str "f,inline") (str "F")

/-- C6 (amended): field post-processing is exactly the composition
mask-step, then precision-step, then force-string-step, inserted under the
field's emitted name; the precision step rounds a float to the requested
number of decimal places by round-half-away-from-zero on the scaled value —
but only when the parsed precision is strictly positive (`Precision > 0` in
the source), not for every precision of 0 or greater as the claim states;
and `roundAway` is symmetric about zero (rounds away from zero on both
sides). -/
theorem spec_C6_postprocessing :
    (∀ (ctx : Ctx) (fi : fieldInfo) (fieldName : Str) (fv : GoVal)
        (val : Option Node) (m : MapT),
      applyFieldPostProcessing ctx fi fieldName fv val m =
        match val with
        | none => m
        | some v0 =>
          minsert m fi.opts.Name
            (forceStringStep fi.opts (precisionStep fi.opts (maskStep ctx fi.opts v0)))) ∧
    (∀ (o : fieldOptions) (q : ℚ), 0 < o.Precision →
      precisionStep o (.nfloat q) =
        .nfloat ((roundAway (q * 10 ^ o.Precision.toNat) : ℚ) / 10 ^ o.Precision.toNat)) ∧
    (∀ q : ℚ, roundAway (-q) = -(roundAway q)) := by
  refine ⟨?_, ?_, ?_⟩
  · intro ctx fi fieldName fv val m
    cases val <;> rfl
  · intro o q h
    rw [precisionStep, if_pos h]
    rfl
  · intro q
    rcases lt_trichotomy q 0 with hq | hq | hq
    · rw [roundAway, roundAway, if_pos (by linarith), if_neg (by linarith)]
      simp
    · subst hq
      norm_num [roundAway]
    · rw [roundAway, roundAway, if_neg (by linarith), if_pos (by linarith)]
      simp

/-- C6, counterexample to the claim as stated: a parsed precision of `0`
("0 or greater", hence active per the claim) does not round — the source
guards the precision step with `Precision > 0` — so a float `3.7` passes
through unchanged instead of becoming `4`. -/
theorem spec_C6_counterexample :
    (parseFieldOptions (str "f,precision=0") (str "F") false).Precision = 0 ∧
    applyFieldPostProcessing {}
        { fname := str "F",
          opts := parseFieldOptions (str "f,precision=0") (str "F") false,
          value := GoVal.vfloat (37 / 10) }
        (str "F") (.vfloat (37 / 10)) (some (.nfloat (37 / 10))) [] =
      [(str "f", Node.nfloat (37 / 10))] ∧
    (37 / 10 : ℚ) ≠
      (roundAway ((37 / 10) * 10 ^ ((0 : Int)).toNat) : ℚ) / 10 ^ ((0 : Int)).toNat := by
  refine ⟨by decide, by rfl, by norm_num [roundAway]⟩

/-- C6 witness: the amended post-processing behaviours at concrete inputs. -/
theorem spec_C6_witness :
    precisionStep { Name := str "f", Precision := (2 : Int) } (Node.nfloat (157 / 50)) =
      Node.nfloat ((roundAway ((157 / 50) * 10 ^ ((2 : Int)).toNat) : ℚ) /
        10 ^ ((2 : Int)).toNat) ∧
    applyFieldPostProcessing {}
        ⟨str "F", { Name := str "f" }, [], [], GoVal.vstr (str "hi")⟩
        (str "F") (.vstr (str "hi")) (some (.nstr (str "hi"))) [] =
      minsert [] (str "f")
        (forceStringStep { Name := str "f" }
          (precisionStep { Name := str "f" } (maskStep {} { Name := str "f" }
            (.nstr (str "hi"))))) := by
  constructor
  · exact spec_C6_postprocessing.2.1 { Name := str "f", Precision := (2 : Int) }
      (157 / 50) (by decide)
  · exact spec_C6_postprocessing.1 {} _ (str "F") (.vstr (str "hi"))
      (some (.nstr (str "hi"))) []

/-- C10: mask lookup is total and never fails — any name missing from the
mask registry (after the empty name is replaced by the default name)
resolves to the built-in `defaultMask`, which returns `****` for strings of
length 4 or less and otherwise keeps a one-character prefix and suffix
around a run of asterisks; and the post-processor applies exactly that
function (rather than erroring or emitting the unmasked value) both for an
unregistered field-level mask name and for the unregistered default name
when the global mask-sensitive switch is on. -/
theorem spec_C10_maskLookup :
    (∀ (reg : Str → Option (Str → Str)) (name : Str),
      reg (if name = [] then defaultMK else name) = none →
      getMask reg name = defaultMask) ∧
    (∀ s : Str, s.length ≤ 4 → defaultMask s = str "****") ∧
    (∀ s : Str, 4 < s.length →
      defaultMask s =
        s.take 1 ++ List.replicate (s.length - (if 8 < s.length then 3 else 2)) '*' ++
          s.drop (s.length - 1)) ∧
    (∀ (ctx : Ctx) (fi : fieldInfo) (fieldName : Str) (fv : GoVal) (s : Str) (m : MapT),
      fi.opts.Mask ≠ [] → ctx.maskReg fi.opts.Mask = none →
      fi.opts.Precision ≤ 0 → fi.opts.ForceString = false →
      applyFieldPostProcessing ctx fi fieldName fv (some (.nstr s)) m =
        minsert m fi.opts.Name (.nstr (defaultMask s))) ∧
    (∀ (ctx : Ctx) (fi : fieldInfo) (fieldName : Str) (fv : GoVal) (s : Str) (m : MapT),
      ctx.opts.MaskSensitive = true → fi.opts.Mask = [] →
      ctx.maskReg defaultMK = none →
      fi.opts.Precision ≤ 0 → fi.opts.ForceString = false →
      applyFieldPostProcessing ctx fi fieldName fv (some (.nstr s)) m =
        minsert m fi.opts.Name (.nstr (defaultMask s))) := by
  refine ⟨?_, ?_, ?_, ?_, ?_⟩
  · intro reg name h
    simp [getMask, h]
  · intro s h
    rw [defaultMask, if_pos h]
  · intro s h
    rw [defaultMask, if_neg (by omega)]
    by_cases h8 : s.length > 8
    · simp only [if_pos h8, gt_iff_lt]
      rw [if_neg (by omega)]
    · simp only [if_neg h8, gt_iff_lt] at *
      rw [if_neg (by omega)]
  · intro ctx fi fieldName fv s m hne hreg hprec hfs
    have hm : getMask ctx.maskReg fi.opts.Mask = defaultMask := by
      simp [getMask, hne, hreg]
    have hp : ¬(fi.opts.Precision > 0) := by omega
    simp only [applyFieldPostProcessing, hne, hm, hp, hfs]
    simp [hne]
  · intro ctx fi fieldName fv s m hms hmask hreg hprec hfs
    have hm : getMask ctx.maskReg fi.opts.Mask = defaultMask := by
      simp [getMask, hmask, hreg]
    have hp : ¬(fi.opts.Precision > 0) := by omega
    simp only [applyFieldPostProcessing, hms, hm, hp, hfs]
    simp

/-- C10 witness: the total lookup and default-mask behaviours at concrete
inputs (an unregistered mask name on an empty registry, a short and a long
string, and the post-processor applying the default mask). -/
theorem spec_C10_witness :
    getMask (fun _ => none) (str "nope") = defaultMask ∧
    defaultMask (str "abcd") = str "****" ∧
    defaultMask (str "abcdefghij") =
      (str "abcdefghij").take 1 ++ List.replicate 7 '*' ++ (str "abcdefghij").drop 9 ∧
    applyFieldPostProcessing { maskReg := fun _ => none }
        ⟨str "F", { Name := str "f", Mask := str "nope" }, [], [], GoVal.vstr (str "secret99")⟩
        (str "F") (.vstr (str "secret99")) (some (.nstr (str "secret99"))) [] =
      minsert [] (str "f") (.nstr (defaultMask (str "secret99"))) := by
  refine ⟨?_, ?_, ?_, ?_⟩
  · exact spec_C10_maskLookup.1 (fun _ => none) (str "nope") rfl
  · exact spec_C10_maskLookup.2.1 (str "abcd") (by decide)
  · exact (spec_C10_maskLookup.2.2.1 (str "abcdefghij") (by decide)).trans (by decide)
  · exact spec_C10_maskLookup.2.2.2.1 { maskReg := fun _ => none }
      ⟨str "F", { Name := str "f", Mask := str "nope" }, [], [], GoVal.vstr (str "secret99")⟩
      (str "F") (.vstr (str "secret99")) (str "secret99") [] (by decide) rfl
      (by decide) rfl

/-- C1: for a tagged struct field that reaches the priority chain (not
`log:"-"`, no conditional-suppress capability, not dropped by omit-empty),
whose tag names a serializer registered in the eager registry and whose
value also implements the custom-marshal (`Logger`/`MarshalLog`) capability,
`encodeField` emits exactly the serializer's output bytes as the field's raw
value — the marshaler's result `lres` plays no part, whatever it is, because
the serializer step precedes and short-circuits the Logger step. -/
theorem spec_C1_serializerPriority (ctx : Ctx) (visited : List Nat)
    (fi : fieldInfo) (m : MapT) (fn : SerFunc) (bytes : Str)
    (lres : Except Str Str)
    (hname : ¬(fi.opts.Name = str "-"))
    (hcond : shouldLogOf fi.value = none)
    (homit : ((fi.opts.OmitEmpty || ctx.opts.OmitEmptyByDefault) && isEmpty fi.value) = false)
    (hser : ¬(fi.opts.Serializer = []))
    (hreg : ctx.serReg fi.opts.Serializer = some fn)
    (hlog : marshalLogOf fi.value = some lres)
    (hok : fn fi.value = .ok bytes) :
    encodeField ctx visited fi m = .ok (minsert m fi.opts.Name (.raw bytes)) := by
  have hws : encodeWithSerializer ctx fi m =
      (true, .ok (minsert m fi.opts.Name (.raw bytes))) := by
    rw [encodeWithSerializer, if_neg hser]
    simp [getSer, hreg, hok]
  simp [encodeField, hname, hcond, homit]
  split
  next r hs => rw [hws] at hs; injection hs with h1 h2; rw [← h2]
  next snd hs => rw [hws] at hs; exact absurd hs (by simp)

/-- C1 witness: a concrete field carrying both a registered serializer name
and a custom-marshal capability emits the serializer's bytes `B`, not the
marshaler's bytes `L`. -/
theorem spec_C1_witness :
    encodeField
      { serReg := fun n => if n = str "up" then some (fun _ => .ok (str "B")) else none }
      []
      ⟨str "F", { Name := str "f", Serializer := str "up" }, [], [],
        GoVal.vstruct (str "T") { marshalLog := some (.ok (str "L")) } []⟩
      [] =
      .ok [(str "f", .raw (str "B"))] ∧ str "B" ≠ str "L" := by
  constructor
  · have h := spec_C1_serializerPriority
      { serReg := fun n => if n = str "up" then some (fun _ => .ok (str "B")) else none }
      []
      ⟨str "F", { Name := str "f", Serializer := str "up" }, [], [],
        GoVal.vstruct (str "T") { marshalLog := some (.ok (str "L")) } []⟩
      [] (fun _ => .ok (str "B")) (str "B") (.ok (str "L"))
      (by decide) rfl (by decide) (by decide) (by simp) rfl rfl
    exact h.trans (by rfl)
  · decide

/-- C4: a tagged struct field naming a serializer registered in neither the
eager nor the lazy registry (and reaching the serializer step of the chain):
with error-fallback enabled the call succeeds and the field's value is the
error-text string, which contains `FIELD_SERIALIZE_ERROR` and the missing
serializer name; with error-fallback disabled the call returns an error
whose message contains `not found`. -/
theorem spec_C4_serializerNotFound (ctx : Ctx) (visited : List Nat)
    (fi : fieldInfo) (m : MapT)
    (hname : ¬(fi.opts.Name = str "-"))
    (hcond : shouldLogOf fi.value = none)
    (homit : ((fi.opts.OmitEmpty || ctx.opts.OmitEmptyByDefault) && isEmpty fi.value) = false)
    (hser : ¬(fi.opts.Serializer = []))
    (heager : ctx.serReg fi.opts.Serializer = none)
    (hlazy : ctx.lazySerReg fi.opts.Serializer = none) :
    (ctx.opts.EnableErrorFallback = true →
      encodeField ctx visited fi m =
        .ok (minsert m fi.opts.Name
          (.nstr (createErrorString ctx.heap fi.fname fi.value
            (serNotFoundMsg fi.opts.Serializer)))) ∧
      strContains (createErrorString ctx.heap fi.fname fi.value
          (serNotFoundMsg fi.opts.Serializer)) (str "FIELD_SERIALIZE_ERROR") = true ∧
      strContains (createErrorString ctx.heap fi.fname fi.value
          (serNotFoundMsg fi.opts.Serializer)) fi.opts.Serializer = true) ∧
    (ctx.opts.EnableErrorFallback = false →
      encodeField ctx visited fi m =
        .error (marshalErrMsg (typeNameOf fi.value) fi.fname
          (serNotFoundMsg fi.opts.Serializer)) ∧
      strContains (marshalErrMsg (typeNameOf fi.value) fi.fname
          (serNotFoundMsg fi.opts.Serializer)) (str "not found") = true) := by
  have hlook : (match getSer ctx fi.opts.Serializer with
      | some f => some f
      | none => getLazySerializer ctx fi.opts.Serializer) = (none : Option SerFunc) := by
    simp [getSer, getLazySerializer, heager, hlazy]
  constructor
  · intro hfb
    have hws : encodeWithSerializer ctx fi m =
        (true, .ok (minsert m fi.opts.Name
          (.nstr (createErrorString ctx.heap fi.fname fi.value
            (serNotFoundMsg fi.opts.Serializer))))) := by
      rw [encodeWithSerializer, if_neg hser]
      simp only [hlook, hfb]
      simp
    refine ⟨?_, createErrorString_marker _ _ _ _, ?_⟩
    · simp [encodeField, hname, hcond, homit]
      split
      next r hs => rw [hws] at hs; injection hs with h1 h2; rw [← h2]
      next snd hs => rw [hws] at hs; exact absurd hs (by simp)
    · have h1 : strContains (serNotFoundMsg fi.opts.Serializer) fi.opts.Serializer = true :=
        serNotFoundMsg_name fi.opts.Serializer
      rw [strContains, decide_eq_true_eq] at h1 ⊢
      obtain ⟨s, t, hst⟩ := h1
      exact ⟨str "FIELD_SERIALIZE_ERROR\x7bfield:" ++ fi.fname ++ str ", value:" ++
          (if containsSensitiveData fi.fname
              (safeValueToString ctx.heap (ctx.heap.length + 1) fi.value) then
            str "<sensitive>" else safeValueToString ctx.heap (ctx.heap.length + 1) fi.value) ++
          str ", error:" ++ s,
        t ++ str "\x7d", by rw [createErrorString, ← hst]; simp⟩
  · intro hfb
    have hws : encodeWithSerializer ctx fi m =
        (true, .error (marshalErrMsg (typeNameOf fi.value) fi.fname
          (serNotFoundMsg fi.opts.Serializer))) := by
      rw [encodeWithSerializer, if_neg hser]
      simp only [hlook, hfb]
      simp
    refine ⟨?_, strContains_marshalErrMsg _ _ _ _ (serNotFoundMsg_notfound _)⟩
    simp [encodeField, hname, hcond, homit]
    split
    next r hs => rw [hws] at hs; injection hs with h1 h2; rw [← h2]
    next snd hs => rw [hws] at hs; exact absurd hs (by simp)

/-- C4 witness: a concrete field naming the unregistered serializer `zz`
under both error-fallback settings. -/
theorem spec_C4_witness :
    (encodeField { opts := { EnableErrorFallback := true } } []
        ⟨str "F", { Name := str "f", Serializer := str "zz" }, [], [], GoVal.vint 5⟩ [] =
      .ok [(str "f", .nstr (createErrorString [] (str "F") (.vint 5)
        (serNotFoundMsg (str "zz"))))]) ∧
    (encodeField { opts := { EnableErrorFallback := false } } []
        ⟨str "F", { Name := str "f", Serializer := str "zz" }, [], [], GoVal.vint 5⟩ [] =
      .error (marshalErrMsg (str "int") (str "F") (serNotFoundMsg (str "zz")))) := by
  constructor
  · have h := (spec_C4_serializerNotFound { opts := { EnableErrorFallback := true } } []
      ⟨str "F", { Name := str "f", Serializer := str "zz" }, [], [], GoVal.vint 5⟩ []
      (by decide) rfl (by decide) (by decide) rfl rfl).1 rfl
    exact h.1.trans (by rfl)
  · have h := (spec_C4_serializerNotFound { opts := { EnableErrorFallback := false } } []
      ⟨str "F", { Name := str "f", Serializer := str "zz" }, [], [], GoVal.vint 5⟩ []
      (by decide) rfl (by decide) (by decide) rfl rfl).2 rfl
    exact h.1.trans (by rfl)

/-! ### Step lemmas for the recursive resolver -/

/-- Descending through a fresh pointer: insert into the visited set and
resolve the pointee (the insertion is undone when this call returns, which
the call-structured visited parameter renders as scoping). -/
theorem encodeReflect_ptr_step (ctx : Ctx) (visited : List Nat) (a : Nat) (v : GoVal)
    (hnot : a ∉ visited) (hh : ctx.heap[a]? = some v) :
    encodeReflect ctx visited (.vptr a) = encodeReflect ctx (a :: visited) v := by
  simp only [encodeReflect]
  rw [dif_neg hnot]
  split
  next v' hh2 => rw [hh] at hh2; injection hh2 with h; rw [h]
  next hh2 => rw [hh] at hh2; exact absurd hh2 (by simp)

/-- A pointer already on the visited path is a hard cyclic-reference
error. -/
theorem encodeReflect_ptr_cycle (ctx : Ctx) (visited : List Nat) (a : Nat)
    (hmem : a ∈ visited) :
    encodeReflect ctx visited (.vptr a) =
      .error (marshalErrMsg (str "ptr") [] cyclicErrText) := by
  simp only [encodeReflect]
  rw [dif_pos hmem]

/-- Struct values dispatch to `encodeStruct`. -/
theorem encodeReflect_struct (ctx : Ctx) (visited : List Nat) (tname : Str)
    (caps : Caps) (fields : List (FieldMeta × GoVal)) :
    encodeReflect ctx visited (.vstruct tname caps fields) =
      encodeStruct ctx visited tname caps fields := by
  simp only [encodeReflect]

/-- Strings resolve to themselves. -/
theorem encodeReflect_str (ctx : Ctx) (visited : List Nat) (s : Str) :
    encodeReflect ctx visited (.vstr s) = .ok (some (.nstr s)) := by
  simp only [encodeReflect]

/-- Integers resolve to themselves. -/
theorem encodeReflect_int (ctx : Ctx) (visited : List Nat) (n : Int) :
    encodeReflect ctx visited (.vint n) = .ok (some (.nint n)) := by
  simp only [encodeReflect]

/-- A value with neither capability passes straight to the resolver. -/
theorem encodeTop_nocaps (ctx : Ctx) (v : GoVal)
    (h1 : shouldLogOf v = none) (h2 : marshalLogOf v = none) :
    encodeTop ctx v = encodeReflect ctx [] v := by
  simp [encodeTop, h1, h2]

/-- Struct encoding in tag mode, when no struct-level custom marshaler
fires. -/
theorem encodeStruct_tagMode (ctx : Ctx) (visited : List Nat) (tname : Str)
    (caps : Caps) (fields : List (FieldMeta × GoVal))
    (hlog : caps.marshalLog = none) (htag : hasLogTagB fields = true) :
    encodeStruct ctx visited tname caps fields =
      match encodeFields ctx visited tname (buildFields fields) [] with
      | .error e => .error e
      | .ok m => .ok (some (.nmap m)) := by
  simp only [encodeStruct, hlog, htag]
  simp

/-- Unfolding of the tag-mode field loop. -/
theorem encodeFields_cons (ctx : Ctx) (visited : List Nat) (tname : Str)
    (fi : fieldInfo) (rest : List fieldInfo) (m : MapT) :
    encodeFields ctx visited tname (fi :: rest) m =
      match encodeField ctx visited fi m with
      | .error e => .error (marshalErrMsg tname fi.fname e)
      | .ok m' => encodeFields ctx visited tname rest m' := by
  simp only [encodeFields]

/-- The empty tag-mode field loop. -/
theorem encodeFields_nil (ctx : Ctx) (visited : List Nat) (tname : Str) (m : MapT) :
    encodeFields ctx visited tname [] m = .ok m := by
  simp only [encodeFields]

/-- A field with no suppress capability, no serializer, no marshal
capability and not dropped by omit-empty falls through to `encodeBasic`. -/
theorem encodeField_plain (ctx : Ctx) (visited : List Nat) (fi : fieldInfo) (m : MapT)
    (hname : ¬(fi.opts.Name = str "-"))
    (hcond : shouldLogOf fi.value = none)
    (homit : ((fi.opts.OmitEmpty || ctx.opts.OmitEmptyByDefault) && isEmpty fi.value) = false)
    (hser : fi.opts.Serializer = [])
    (hlog : marshalLogOf fi.value = none) :
    encodeField ctx visited fi m = encodeBasic ctx visited fi m := by
  have hws : encodeWithSerializer ctx fi m = (false, .ok m) := by
    rw [encodeWithSerializer, if_pos hser]
  simp [encodeField, hname, hcond, homit]
  split
  next r hs => rw [hws] at hs; exact absurd hs (by simp)
  next snd hs => simp [hlog]

/-- `encodeBasic` outside the inline special case. -/
theorem encodeBasic_eval (ctx : Ctx) (visited : List Nat) (fi : fieldInfo) (m : MapT)
    (hinline : ¬(fi.opts.Inline = true ∧ isStructKind fi.value = true)) :
    encodeBasic ctx visited fi m =
      match encodeReflect ctx visited fi.value with
      | .error e =>
        if ctx.opts.EnableErrorFallback then
          .ok (minsert m fi.opts.Name
            (.nstr (createErrorString ctx.heap fi.fname fi.value e)))
        else .error e
      | .ok out => .ok (applyFieldPostProcessing ctx fi fi.fname fi.value out m) := by
  simp only [encodeBasic]
  rw [if_neg hinline]

/-- The cyclic-reference message carries the text `cyclic`. -/
theorem cyclicErrText_marker : strContains cyclicErrText (str "cyclic") = true :=
  strContains_of_parts _ _ [] (str " reference detected") rfl

/-- Substring containment is transitive. -/
theorem strContains_trans (s e pat : Str)
    (h1 : strContains s e = true) (h2 : strContains e pat = true) :
    strContains s pat = true := by
  rw [strContains, decide_eq_true_eq] at h1 h2 ⊢
  exact h2.trans h1

/-- C2: cycle safety.  (i) Any self- or mutually-referential pointer pair
reached at the top level makes the encode call terminate with a hard error
whose message contains `cyclic` (the claim asserts this with error-fallback
disabled; it holds for every option configuration, since field-level
fallback never applies at the top level).  (ii) For a struct whose tagged
field points back at the struct itself, with error-fallback enabled the
call succeeds, the cyclic field's value is the error-text string (which
carries `FIELD_SERIALIZE_ERROR` and `cyclic`) and the sibling field still
encodes to its ordinary value; with error-fallback disabled the call
returns a hard error containing `cyclic`.  Termination on cyclic heaps
holds for every input by construction: the resolver is a total function,
defined by the well-founded measure (unvisited heap addresses, value
size). -/
theorem spec_C2_cycleSafety :
    (∀ (ctx : Ctx) (a b : Nat),
      ctx.heap[a]? = some (.vptr b) → ctx.heap[b]? = some (.vptr a) →
      ∃ msg, encodeTop ctx (.vptr a) = .error msg ∧
        strContains msg (str "cyclic") = true) ∧
    (∀ (ctx : Ctx) (a : Nat),
      ctx.heap[a]? = some (.vstruct (str "S") {}
        [(⟨str "P", some (str "p"), [], false⟩, .vptr a),
         (⟨str "N", some (str "n"), [], false⟩, .vstr (str "hi"))]) →
      ctx.opts.DisableLoggerInterface = false →
      ctx.opts.MaskSensitive = false →
      (ctx.opts.EnableErrorFallback = true →
        encodeTop ctx (.vptr a) = .ok (some (.nmap
          [(str "p", .nstr (createErrorString ctx.heap (str "P") (.vptr a)
              (marshalErrMsg (str "ptr") [] cyclicErrText))),
           (str "n", .nstr (str "hi"))])) ∧
        strContains (createErrorString ctx.heap (str "P") (.vptr a)
            (marshalErrMsg (str "ptr") [] cyclicErrText))
          (str "FIELD_SERIALIZE_ERROR") = true ∧
        strContains (createErrorString ctx.heap (str "P") (.vptr a)
            (marshalErrMsg (str "ptr") [] cyclicErrText)) (str "cyclic") = true) ∧
      (ctx.opts.EnableErrorFallback = false →
        encodeTop ctx (.vptr a) = .error (marshalErrMsg (str "S") (str "P")
          (marshalErrMsg (str "ptr") [] cyclicErrText)) ∧
        strContains (marshalErrMsg (str "S") (str "P")
          (marshalErrMsg (str "ptr") [] cyclicErrText)) (str "cyclic") = true)) := by
  constructor
  · intro ctx a b ha hb
    refine ⟨marshalErrMsg (str "ptr") [] cyclicErrText, ?_,
      strContains_marshalErrMsg _ _ _ _ cyclicErrText_marker⟩
    rw [encodeTop_nocaps ctx (.vptr a) rfl rfl]
    by_cases hab : a = b
    · subst hab
      rw [encodeReflect_ptr_step ctx [] a _ (by simp) ha]
      exact encodeReflect_ptr_cycle ctx [a] a (by simp)
    · rw [encodeReflect_ptr_step ctx [] a _ (by simp) ha]
      rw [encodeReflect_ptr_step ctx [a] b _
        (by simp; exact fun h => hab h.symm) hb]
      exact encodeReflect_ptr_cycle ctx [b, a] a (by simp)
  · intro ctx a hheap hDis hMS
    have hE : strContains (createErrorString ctx.heap (str "P") (.vptr a)
        (marshalErrMsg (str "ptr") [] cyclicErrText)) (str "cyclic") = true :=
      strContains_trans _ _ _ (createErrorString_err _ _ _ _)
        (strContains_marshalErrMsg _ _ _ _ cyclicErrText_marker)
    have hbf : buildFields
        [(⟨str "P", some (str "p"), [], false⟩, GoVal.vptr a),
         (⟨str "N", some (str "n"), [], false⟩, GoVal.vstr (str "hi"))] =
        [⟨str "P", { Name := str "p" }, [], [], GoVal.vptr a⟩,
         ⟨str "N", { Name := str "n" }, [], [], GoVal.vstr (str "hi")⟩] := rfl
    have h1 : encodeTop ctx (.vptr a) = encodeStruct ctx [a] (str "S") {}
        [(⟨str "P", some (str "p"), [], false⟩, .vptr a),
         (⟨str "N", some (str "n"), [], false⟩, .vstr (str "hi"))] := by
      rw [encodeTop_nocaps ctx (.vptr a) rfl rfl,
        encodeReflect_ptr_step ctx [] a _ (by simp) hheap, encodeReflect_struct]
    have hNstep : ∀ m : MapT,
        encodeField ctx [a] ⟨str "N", { Name := str "n" }, [], [], GoVal.vstr (str "hi")⟩ m =
          .ok (minsert m (str "n") (.nstr (str "hi"))) := by
      intro m
      rw [encodeField_plain ctx [a]
        ⟨str "N", { Name := str "n" }, [], [], GoVal.vstr (str "hi")⟩ m
        (by exact (by decide : ¬(str "n" = str "-"))) rfl (by simp [isEmpty, str]) rfl rfl]
      rw [encodeBasic_eval ctx [a]
        ⟨str "N", { Name := str "n" }, [], [], GoVal.vstr (str "hi")⟩ m (by simp)]
      rw [encodeReflect_str]
      simp [applyFieldPostProcessing, hMS]
    constructor
    · intro hfb
      refine ⟨?_, createErrorString_marker _ _ _ _, hE⟩
      have hPf : encodeField ctx [a]
          ⟨str "P", { Name := str "p" }, [], [], GoVal.vptr a⟩ [] =
          .ok [(str "p", .nstr (createErrorString ctx.heap (str "P") (.vptr a)
            (marshalErrMsg (str "ptr") [] cyclicErrText)))] := by
        rw [encodeField_plain ctx [a]
          ⟨str "P", { Name := str "p" }, [], [], GoVal.vptr a⟩ []
          (by exact (by decide : ¬(str "p" = str "-"))) rfl (by simp [isEmpty]) rfl rfl]
        rw [encodeBasic_eval ctx [a]
          ⟨str "P", { Name := str "p" }, [], [], GoVal.vptr a⟩ [] (by simp)]
        rw [encodeReflect_ptr_cycle ctx [a] a (by simp)]
        simp [hfb, minsert]
      rw [h1]
      rw [encodeStruct_tagMode ctx [a] (str "S") {}
        [(⟨str "P", some (str "p"), [], false⟩, .vptr a),
         (⟨str "N", some (str "n"), [], false⟩, .vstr (str "hi"))] rfl rfl]
      rw [hbf]
      rw [encodeFields_cons]
      rw [hPf]
      simp [encodeFields_cons, encodeFields_nil, hNstep, minsert]
      decide
    · intro hfb
      refine ⟨?_, strContains_marshalErrMsg _ _ _ _
        (strContains_marshalErrMsg _ _ _ _ cyclicErrText_marker)⟩
      have hPf : encodeField ctx [a]
          ⟨str "P", { Name := str "p" }, [], [], GoVal.vptr a⟩ [] =
          .error (marshalErrMsg (str "ptr") [] cyclicErrText) := by
        rw [encodeField_plain ctx [a]
          ⟨str "P", { Name := str "p" }, [], [], GoVal.vptr a⟩ []
          (by exact (by decide : ¬(str "p" = str "-"))) rfl (by simp [isEmpty]) rfl rfl]
        rw [encodeBasic_eval ctx [a]
          ⟨str "P", { Name := str "p" }, [], [], GoVal.vptr a⟩ [] (by simp)]
        rw [encodeReflect_ptr_cycle ctx [a] a (by simp)]
        simp [hfb]
      rw [h1]
      rw [encodeStruct_tagMode ctx [a] (str "S") {}
        [(⟨str "P", some (str "p"), [], false⟩, .vptr a),
         (⟨str "N", some (str "n"), [], false⟩, .vstr (str "hi"))] rfl rfl]
      rw [hbf]
      rw [encodeFields_cons]
      rw [hPf]

/-- C2 witness: the cycle behaviours at a concrete two-cell heap (mutual
cycle) and a concrete self-referential struct under both fallback
settings. -/
theorem spec_C2_witness :
    (∃ msg, encodeTop { heap := [GoVal.vptr 1, GoVal.vptr 0] } (.vptr 0) = .error msg ∧
      strContains msg (str "cyclic") = true) ∧
    encodeTop { heap := [demoSelfStruct], opts := { EnableErrorFallback := true } }
        (.vptr 0) =
      .ok (some (.nmap
        [(str "p", .nstr (createErrorString [demoSelfStruct] (str "P") (.vptr 0)
            (marshalErrMsg (str "ptr") [] cyclicErrText))),
         (str "n", .nstr (str "hi"))])) ∧
    encodeTop { heap := [demoSelfStruct], opts := { EnableErrorFallback := false } }
        (.vptr 0) =
      .error (marshalErrMsg (str "S") (str "P")
        (marshalErrMsg (str "ptr") [] cyclicErrText)) := by
  refine ⟨spec_C2_cycleSafety.1 { heap := [GoVal.vptr 1, GoVal.vptr 0] } 0 1 rfl rfl,
    ((spec_C2_cycleSafety.2
      { heap := [demoSelfStruct], opts := { EnableErrorFallback := true } }
      0 rfl rfl rfl).1 rfl).1,
    ((spec_C2_cycleSafety.2
      { heap := [demoSelfStruct], opts := { EnableErrorFallback := false } }
      0 rfl rfl rfl).2 rfl).1⟩

/-- C7: the cycle guard's visited set is call-scoped — in the model the set
a callee runs with is the caller's set extended only with the pointers on
the path to it, and siblings run with identical sets, which is exactly the
source's insert-before-descend / delete-on-return (`defer`) discipline, so
no entry survives a subtree's call.  Consequently (i) two sibling fields
referencing the same pointer both encode successfully (no false cyclic
report): the second field starts from the same visited set as the first and
succeeds identically; (ii) descending through a fresh pointer only extends
the set for the subtree; and (iii) only a true ancestor-to-descendant
reference — a pointer already on the current path — is reported cyclic. -/
theorem spec_C7_visitedScope :
    (∀ (ctx : Ctx) (visited : List Nat) (a : Nat) (n : Int) (p q : Str),
      a ∉ visited → ctx.heap[a]? = some (.vint n) →
      ¬(p = str "-") → ¬(q = str "-") → ¬(p = q) →
      encodeFields ctx visited (str "S")
        [⟨str "X", { Name := p }, [], [], .vptr a⟩,
         ⟨str "Y", { Name := q }, [], [], .vptr a⟩] [] =
        .ok [(p, .nint n), (q, .nint n)]) ∧
    (∀ (ctx : Ctx) (visited : List Nat) (a : Nat) (v : GoVal),
      a ∉ visited → ctx.heap[a]? = some v →
      encodeReflect ctx visited (.vptr a) = encodeReflect ctx (a :: visited) v) ∧
    (∀ (ctx : Ctx) (visited : List Nat) (a : Nat), a ∈ visited →
      encodeReflect ctx visited (.vptr a) =
        .error (marshalErrMsg (str "ptr") [] cyclicErrText)) := by
  refine ⟨?_, encodeReflect_ptr_step, encodeReflect_ptr_cycle⟩
  intro ctx visited a n p q hnot hheap hp hq hpq
  have hstep : ∀ (fn : Str) (nm : Str) (m : MapT), ¬(nm = str "-") →
      encodeField ctx visited ⟨fn, { Name := nm }, [], [], .vptr a⟩ m =
        .ok (minsert m nm (.nint n)) := by
    intro fn nm m hnm
    rw [encodeField_plain ctx visited ⟨fn, { Name := nm }, [], [], .vptr a⟩ m
      hnm rfl (by simp [isEmpty]) rfl rfl]
    rw [encodeBasic_eval ctx visited ⟨fn, { Name := nm }, [], [], .vptr a⟩ m
      (by simp)]
    rw [encodeReflect_ptr_step ctx visited a _ hnot hheap]
    rw [encodeReflect_int]
    simp [applyFieldPostProcessing]
  rw [encodeFields_cons, hstep (str "X") p [] hp]
  have h2 := hstep (str "Y") q [(p, Node.nint n)] hq
  simp only [show minsert [] p (Node.nint n) = [(p, Node.nint n)] from rfl]
  simp [encodeFields_cons, encodeFields_nil, h2, minsert, hpq]

/-- C7 witness: two sibling fields sharing heap cell 0 both encode; the
same pointer is flagged only when already on the path. -/
theorem spec_C7_witness :
    encodeFields { heap := [GoVal.vint 41] } [] (str "S")
      [⟨str "X", { Name := str "x" }, [], [], .vptr 0⟩,
       ⟨str "Y", { Name := str "y" }, [], [], .vptr 0⟩] [] =
      .ok [(str "x", .nint 41), (str "y", .nint 41)] ∧
    encodeReflect { heap := [GoVal.vint 41] } [0] (.vptr 0) =
      .error (marshalErrMsg (str "ptr") [] cyclicErrText) := by
  constructor
  · exact spec_C7_visitedScope.1 { heap := [GoVal.vint 41] } [] 0 41
      (str "x") (str "y") (by simp) rfl (by decide) (by decide) (by decide)
  · exact spec_C7_visitedScope.2.2 { heap := [GoVal.vint 41] } [0] 0 (by simp)

/-- Concrete test fixture for the conditional-suppress claim: a struct
that implements `ShouldLog() = true` and carries one `log`-tagged field. -/
def demoCondInner : GoVal :=
  .vstruct (str "Inner") { shouldLog := some true }
    [(⟨str "A", some (str "a"), [], false⟩, .vstr (str "x"))]

/-- C3, evaluation at the failing input: a tagged struct field whose value
implements the conditional-suppress capability with `ShouldLog() = true`
and whose own type carries `log` tags.  The code resolves it through the
full resolver — which for a tag-mode struct takes the **tag-aware** path
and emits only the `log`-tagged fields (`{"a": "x"}`) — whereas the claim
(and the source's own comment, "serialize the entire struct using JSON
marshaling … preserves all struct fields") prescribes the generic-fallback
path of step 5, which for this struct would emit its json-tag fallback
fields: the empty object.  The two results differ. -/
theorem spec_C3_eval :
    encodeField {} [] ⟨str "F", { Name := str "f" }, [], [], demoCondInner⟩ [] =
      .ok [(str "f", .nmap [(str "a", .nstr (str "x"))])] ∧
    encodeJsonFields {} [] (str "Inner")
      (buildFields [(⟨str "A", some (str "a"), [], false⟩, GoVal.vstr (str "x"))]) [] =
      .ok [] ∧
    Node.nmap [(str "a", .nstr (str "x"))] ≠ Node.nmap [] := by
  have hA : encodeField {} [] ⟨str "A", { Name := str "a" }, [], [], GoVal.vstr (str "x")⟩ [] =
      .ok [(str "a", .nstr (str "x"))] := by
    rw [encodeField_plain {} [] ⟨str "A", { Name := str "a" }, [], [], GoVal.vstr (str "x")⟩ []
      (by decide) rfl (by decide) rfl rfl]
    rw [encodeBasic_eval {} [] ⟨str "A", { Name := str "a" }, [], [], GoVal.vstr (str "x")⟩ []
      (by decide)]
    rw [encodeReflect_str]
    rfl
  have hInner : encodeReflect {} [] demoCondInner =
      .ok (some (.nmap [(str "a", .nstr (str "x"))])) := by
    rw [show demoCondInner = GoVal.vstruct (str "Inner") { shouldLog := some true }
      [(⟨str "A", some (str "a"), [], false⟩, GoVal.vstr (str "x"))] from rfl]
    rw [encodeReflect_struct, encodeStruct_tagMode {} [] (str "Inner")
      { shouldLog := some true }
      [(⟨str "A", some (str "a"), [], false⟩, GoVal.vstr (str "x"))] rfl rfl]
    rw [show buildFields [(⟨str "A", some (str "a"), [], false⟩, GoVal.vstr (str "x"))] =
      [⟨str "A", { Name := str "a" }, [], [], GoVal.vstr (str "x")⟩] from rfl]
    simp [encodeFields_cons, encodeFields_nil, hA]
  have hSL : shouldLogOf demoCondInner = some true := rfl
  have hname : ¬(str "f" = str "-") := by decide
  refine ⟨?_, ?_, by simp⟩
  · simp [encodeField, hSL, hInner, hname, minsert]
  · simp [encodeJsonFields, buildFields, parseFieldOptions, trimSpace, str]

end IbuerLog
